import Mathlib

/-!
Verification of the Starstuck Lab content-generation scripts.

Part 1 embeds the variant rolling-buffer protocol of
`site/tools/regenerate_content.py`: the index computation
`next_variant_indexes`, the per-page regeneration run (load buffer,
compute indices, insert one generated record per index, persist), and
sequences of such runs.

Part 2 embeds the scene variant pipeline of
`site/tools/regenerate_images.py`: variant normalization, unique-id
validation, manifest preparation (`prepare_scenes`), the per-scene
processing loop of `main`, and the image operation
`crop_center_to_aspect`.
-/

namespace StarstuckLab

/-! ### Rolling buffer: `regenerate_content.py` -/

/-- Constant `MAX_VARIANTS = 20` of `regenerate_content.py`. -/
def MAX_VARIANTS : Nat := 20

/-- Embedding of `next_variant_indexes(existing_len, max_variants, num_new)`:
if `existing_len < max_variants` it returns `[start + i for i in range(num_new)]`
with `start = existing_len + 1`; otherwise it returns
`[((i) % max_variants) + 1 for i in range(1, num_new + 1)]`
(`range(1, num_new + 1)` is `List.range' 1 num_new`). -/
def next_variant_indexes (existing_len max_variants num_new : Nat) : List Nat :=
  if existing_len < max_variants then
    (List.range num_new).map (fun i => existing_len + 1 + i)
  else
    (List.range' 1 num_new).map (fun i => i % max_variants + 1)

/-- One record of the buffer: a mapping from `public_json_key` block names to
generated text, as built into `page_data` in the main loop. -/
abbrev Record := List (String × String)

/-- The persisted buffer `existing`: a JSON object mapping integer keys
(serialized as strings; modelled as `Nat`) to records.  Python dicts keep
insertion order, so the buffer is an ordered association list with
distinct keys. -/
abbrev Buffer := List (Nat × Record)

/-- Embedding of the Python dict update `existing[key] = page_data`: if the
key is present its value is replaced in place, otherwise the pair is
appended at the end. -/
def dictInsert (buffer : Buffer) (k : Nat) (r : Record) : Buffer :=
  if buffer.any (fun p => p.1 = k) then
    buffer.map (fun p => if p.1 = k then (k, r) else p)
  else
    buffer ++ [(k, r)]

/-- Embedding of one page-regeneration run of the main loop of
`regenerate_content.py` (lines 434-500): from the loaded buffer `existing`,
compute `indices = next_variant_indexes(len(existing), MAX_VARIANTS, NUM_NEW)`,
then for each index insert the generated record (`existing[key] = page_data`),
and finally persist the whole resulting buffer.  The text-generation
collaborator is abstracted as `gen`, giving the full record produced for a
given variant index (a failed block is a placeholder string inside the
record and does not change the control flow). -/
def runPage (gen : Nat → Record) (num_new : Nat) (existing : Buffer) : Buffer :=
  (next_variant_indexes existing.length MAX_VARIANTS num_new).foldl
    (fun buf idx => dictInsert buf idx (gen idx)) existing

/-- A sequence of regeneration runs for one page, each with its own
collaborator behaviour and `--num-variants` value, starting from a given
persisted buffer. -/
def applyRuns (runs : List ((Nat → Record) × Nat)) (b : Buffer) : Buffer :=
  runs.foldl (fun buf r => runPage r.1 r.2 buf) b

/-! #### Claims C1 and C2: the two phases of the index computation -/

/-- Claim C1 (counterexample).  The wrap phase does not restart overwriting
from key 1: `next_variant_indexes 20 20 3` is `[2, 3, 4]`, not `[1, 2, 3]`
as the spec states. -/
theorem wrap_phase_counterexample :
    next_variant_indexes 20 20 3 ≠ [1, 2, 3] ∧
    next_variant_indexes 20 20 3 = [2, 3, 4] := by
  decide

/-- Claim C1 (amended).  Wrap phase of the index computation: for every
`existingCount >= capacity` and every `numNew`, the result has length
`numNew`, its `j`-th entry is `((j+1) mod capacity) + 1`, and (for positive
capacity) every returned key lies in `1..capacity`; overwriting restarts
from key 2, key 1 being reached only at position `capacity - 1`; in
particular for `existingCount = 20, capacity = 20, numNew = 3` the result
is `[2, 3, 4]`. -/
theorem wrap_phase (existing cap n : Nat) (h : cap ≤ existing) (hc : 0 < cap) :
    (next_variant_indexes existing cap n).length = n ∧
    (∀ j, j < n → (next_variant_indexes existing cap n).getD j 0 = (j + 1) % cap + 1) ∧
    (∀ k ∈ next_variant_indexes existing cap n, 1 ≤ k ∧ k ≤ cap) ∧
    next_variant_indexes 20 20 3 = [2, 3, 4] := by
  have hnot : ¬ existing < cap := not_lt.mpr h
  refine ⟨?_, ?_, ?_, by decide⟩
  · simp [next_variant_indexes, hnot]
  · intro j hj
    simp only [next_variant_indexes, if_neg hnot]
    rw [List.getD_eq_getElem?_getD, List.getElem?_map]
    rw [List.getElem?_range']
    · simp [Nat.add_comm 1 j]
    · simpa using hj
  · intro k hk
    simp only [next_variant_indexes, if_neg hnot, List.mem_map] at hk
    obtain ⟨i, _, rfl⟩ := hk
    exact ⟨Nat.succ_le_succ (Nat.zero_le _),
      Nat.succ_le_of_lt (Nat.mod_lt _ hc)⟩

/-- Claim C1 witness: the amended wrap-phase theorem instantiated at
`existingCount = 20, capacity = 20, numNew = 3`. -/
theorem wrap_phase_witness :
    (next_variant_indexes 20 20 3).length = 3 ∧
    next_variant_indexes 20 20 3 = [2, 3, 4] := by
  have h := wrap_phase 20 20 3 (by decide) (by decide)
  exact ⟨h.1, h.2.2.2⟩

/-- Claim C2.  Append phase of the index computation: for every
`existingCount < capacity` and every `numNew`, the result is exactly
`[existingCount+1, ..., existingCount+numNew]` (`List.range'` starting at
`existingCount+1` of length `numNew`), uncapped: for
`existingCount = 3, capacity = 20, numNew = 2` the result is `[4, 5]`, and
for `existingCount = 19, capacity = 20, numNew = 5` it is
`[20, 21, 22, 23, 24]`, with keys beyond the capacity returned literally. -/
theorem append_phase (existing cap n : Nat) (h : existing < cap) :
    next_variant_indexes existing cap n = List.range' (existing + 1) n ∧
    next_variant_indexes 3 20 2 = [4, 5] ∧
    next_variant_indexes 19 20 5 = [20, 21, 22, 23, 24] := by
  refine ⟨?_, by decide, by decide⟩
  simp only [next_variant_indexes, if_pos h]
  rw [List.range'_eq_map_range]

/-- Claim C2 witness: the append-phase theorem instantiated at
`existingCount = 3, capacity = 20, numNew = 2`. -/
theorem append_phase_witness :
    next_variant_indexes 3 20 2 = List.range' 4 2 ∧
    next_variant_indexes 3 20 2 = [4, 5] := by
  have h := append_phase 3 20 2 (by decide)
  exact ⟨h.1, h.2.1⟩

/-! #### Buffer key invariant

Starting from an empty persisted buffer, the keys of every buffer reachable
through regeneration runs are exactly `1, 2, ..., size` in order: the append
phase appends fresh consecutive keys at the end, and the wrap phase only
overwrites keys that are already present. -/

/-- Invariant on persisted buffers: the keys are exactly `1..size`
in order. -/
def goodKeys (b : Buffer) : Prop := b.map Prod.fst = List.range' 1 b.length

theorem dictInsert_fst_of_mem (b : Buffer) (k : Nat) (r : Record)
    (h : k ∈ b.map Prod.fst) :
    (dictInsert b k r).map Prod.fst = b.map Prod.fst := by
  have hany : b.any (fun p => p.1 = k) = true := by
    simp only [List.any_eq_true, decide_eq_true_eq]
    simp only [List.mem_map] at h
    obtain ⟨p, hp, rfl⟩ := h
    exact ⟨p, hp, rfl⟩
  simp only [dictInsert, if_pos hany, List.map_map]
  apply List.map_congr_left
  intro p _
  by_cases hp : p.1 = k
  · simp [hp]
  · simp [hp]

theorem dictInsert_length_of_mem (b : Buffer) (k : Nat) (r : Record)
    (h : k ∈ b.map Prod.fst) : (dictInsert b k r).length = b.length := by
  have := dictInsert_fst_of_mem b k r h
  have h1 : ((dictInsert b k r).map Prod.fst).length = (b.map Prod.fst).length := by
    rw [this]
  simpa using h1

theorem dictInsert_fresh (b : Buffer) (k : Nat) (r : Record)
    (h : k ∉ b.map Prod.fst) : dictInsert b k r = b ++ [(k, r)] := by
  have hany : b.any (fun p => p.1 = k) = false := by
    simp only [List.any_eq_false, decide_eq_true_eq]
    intro p hp hpk
    exact h (List.mem_map.mpr ⟨p, hp, hpk⟩)
  simp [dictInsert, hany]

/-- Folding the per-index insertion over indices that are all already
present keeps the key list unchanged. -/
theorem fold_fst_of_mem (gen : Nat → Record) (l : List Nat) :
    ∀ b : Buffer, (∀ i ∈ l, i ∈ b.map Prod.fst) →
      ((l.foldl (fun buf idx => dictInsert buf idx (gen idx)) b).map Prod.fst
        = b.map Prod.fst) := by
  induction l with
  | nil => intro b _; rfl
  | cons i t ih =>
      intro b hb
      have hi : i ∈ b.map Prod.fst := hb i (List.mem_cons_self i t)
      have hkeys := dictInsert_fst_of_mem b i (gen i) hi
      simp only [List.foldl_cons]
      rw [ih (dictInsert b i (gen i))]
      · exact hkeys
      · intro j hj
        rw [hkeys]
        exact hb j (List.mem_cons_of_mem i hj)

/-- Folding the per-index insertion over the fresh consecutive keys
`size+1, ..., size+n` preserves the key invariant and grows the size
by `n`. -/
theorem fold_fresh_range (gen : Nat → Record) (n : Nat) :
    ∀ b : Buffer, goodKeys b →
      goodKeys ((List.range' (b.length + 1) n).foldl
          (fun buf idx => dictInsert buf idx (gen idx)) b) ∧
      ((List.range' (b.length + 1) n).foldl
          (fun buf idx => dictInsert buf idx (gen idx)) b).length
        = b.length + n := by
  induction n with
  | zero => intro b hb; exact ⟨hb, rfl⟩
  | succ m ih =>
      intro b hb
      have hfresh : b.length + 1 ∉ b.map Prod.fst := by
        rw [hb]
        intro hmem
        rcases List.mem_range'_1.mp hmem with ⟨_, hlt⟩
        omega
      have hstep : dictInsert b (b.length + 1) (gen (b.length + 1))
          = b ++ [(b.length + 1, gen (b.length + 1))] :=
        dictInsert_fresh b (b.length + 1) _ hfresh
      have hgood : goodKeys (b ++ [(b.length + 1, gen (b.length + 1))]) := by
        unfold goodKeys at hb ⊢
        rw [List.map_append, hb, List.length_append]
        simp [List.range'_concat, Nat.add_comm 1 b.length]
      have hlen : (b ++ [(b.length + 1, gen (b.length + 1))]).length
          = b.length + 1 := by simp
      rw [List.range'_succ, List.foldl_cons, hstep]
      have ihres := ih (b ++ [(b.length + 1, gen (b.length + 1))]) hgood
      rw [hlen] at ihres
      refine ⟨?_, ?_⟩
      · exact ihres.1
      · rw [ihres.2]; omega

/-- Bound helper for the wrap branch: every wrap-phase key lies in
`1..capacity`. -/
theorem wrap_index_bounds (cap n k : Nat) (hc : 0 < cap)
    (hk : k ∈ (List.range' 1 n).map (fun i => i % cap + 1)) :
    1 ≤ k ∧ k ≤ cap := by
  rcases List.mem_map.mp hk with ⟨i, _, rfl⟩
  exact ⟨Nat.succ_le_succ (Nat.zero_le _), Nat.succ_le_of_lt (Nat.mod_lt _ hc)⟩

/-- One run preserves the key invariant; its size effect is `+ numNew` in
the append phase and `0` in the wrap phase. -/
theorem runPage_preserves (gen : Nat → Record) (n : Nat) (b : Buffer)
    (hb : goodKeys b) :
    goodKeys (runPage gen n b) ∧
    (runPage gen n b).length
      = (if b.length < MAX_VARIANTS then b.length + n else b.length) := by
  by_cases hlt : b.length < MAX_VARIANTS
  · have hidx : next_variant_indexes b.length MAX_VARIANTS n
        = List.range' (b.length + 1) n := by
      simp only [next_variant_indexes, if_pos hlt]
      rw [List.range'_eq_map_range]
    have h := fold_fresh_range gen n b hb
    unfold runPage
    rw [hidx, if_pos hlt]
    exact h
  · have hidx : next_variant_indexes b.length MAX_VARIANTS n
        = (List.range' 1 n).map (fun i => i % MAX_VARIANTS + 1) := by
      simp only [next_variant_indexes, if_neg hlt]
    have hmem : ∀ i ∈ next_variant_indexes b.length MAX_VARIANTS n,
        i ∈ b.map Prod.fst := by
      intro i hi
      rw [hidx] at hi
      have hbounds := wrap_index_bounds MAX_VARIANTS n i (by decide) hi
      rw [hb]
      apply List.mem_range'_1.mpr
      omega
    have hkeys := fold_fst_of_mem gen
      (next_variant_indexes b.length MAX_VARIANTS n) b hmem
    have hlen : (runPage gen n b).length = b.length := by
      have h1 : ((runPage gen n b).map Prod.fst).length
          = (b.map Prod.fst).length := by
        unfold runPage; rw [hkeys]
      simpa using h1
    refine ⟨?_, ?_⟩
    · unfold goodKeys
      unfold runPage at hkeys hlen ⊢
      rw [hkeys, hlen, hb]
    · rw [if_neg hlt]; exact hlen

/-- A sequence of runs started on an invariant-satisfying buffer of size at
least `MAX_VARIANTS` keeps the invariant and never changes the size. -/
theorem applyRuns_frozen (runs : List ((Nat → Record) × Nat)) :
    ∀ b : Buffer, goodKeys b → MAX_VARIANTS ≤ b.length →
      goodKeys (applyRuns runs b) ∧ (applyRuns runs b).length = b.length := by
  induction runs with
  | nil => intro b hb _; exact ⟨hb, rfl⟩
  | cons r t ih =>
      intro b hb hge
      have hstep := runPage_preserves r.1 r.2 b hb
      have hlen : (runPage r.1 r.2 b).length = b.length := by
        rw [hstep.2, if_neg (not_lt.mpr hge)]
      have ihres := ih (runPage r.1 r.2 b) hstep.1 (by omega)
      simp only [applyRuns, List.foldl_cons]
      unfold applyRuns at ihres
      refine ⟨ihres.1, ?_⟩
      rw [ihres.2, hlen]

/-- Every buffer reachable from the empty buffer satisfies the key
invariant. -/
theorem applyRuns_goodKeys (runs : List ((Nat → Record) × Nat)) :
    ∀ b : Buffer, goodKeys b → goodKeys (applyRuns runs b) := by
  induction runs with
  | nil => intro b hb; exact hb
  | cons r t ih =>
      intro b hb
      simp only [applyRuns, List.foldl_cons]
      exact ih _ (runPage_preserves r.1 r.2 b hb).1

/-! #### Claim C3: buffer capacity bound -/

/-- Claim C3 (counterexample).  A single run of 21 new variants on an empty
buffer yields a persisted key count of 21, at least `MAX_VARIANTS = 20`;
a further run leaves the count at 21, strictly exceeding the capacity: the
claimed bound "never exceeds capacity after reaching it" fails. -/
theorem buffer_capacity_bound_counterexample :
    MAX_VARIANTS ≤ (applyRuns [(fun _ => [], 21)] []).length ∧
    MAX_VARIANTS <
      (applyRuns [(fun _ => [], 1)] (applyRuns [(fun _ => [], 21)] [])).length := by
  decide

/-- Claim C3 (amended).  For every sequence of regeneration runs from the
empty buffer, once the persisted key count is at least the capacity
`MAX_VARIANTS`, every further run leaves the key count unchanged (the wrap
branch only overwrites existing keys); hence the count stays within the
capacity after further runs exactly when it was within the capacity when
the wrap regime was reached. -/
theorem buffer_capacity_bound (runs more : List ((Nat → Record) × Nat))
    (h : MAX_VARIANTS ≤ (applyRuns runs []).length) :
    (applyRuns more (applyRuns runs [])).length = (applyRuns runs []).length ∧
    ((applyRuns runs []).length ≤ MAX_VARIANTS →
      (applyRuns more (applyRuns runs [])).length ≤ MAX_VARIANTS) := by
  have hgood : goodKeys (applyRuns runs []) :=
    applyRuns_goodKeys runs [] (by simp [goodKeys])
  have hres := applyRuns_frozen more (applyRuns runs []) hgood h
  exact ⟨hres.2, fun hle => by omega⟩

/-- Claim C3 witness: after one run of 20 variants on the empty buffer the
count is exactly the capacity, and a further run of 3 keeps it at 20. -/
theorem buffer_capacity_bound_witness :
    (applyRuns [(fun _ => [], 3)] (applyRuns [(fun _ => [], 20)] [])).length
      = (applyRuns [(fun _ => [], 20)] []).length ∧
    (applyRuns [(fun _ => [], 3)] (applyRuns [(fun _ => [], 20)] [])).length
      ≤ MAX_VARIANTS := by
  have h := buffer_capacity_bound [(fun _ => [], 20)] [(fun _ => [], 3)]
    (by decide)
  exact ⟨h.1, h.2 (by decide)⟩

/-! #### Claim C9: persistence frame -/

theorem lookup_map_update (b : Buffer) (i k : Nat) (r : Record) (h : i ≠ k) :
    (b.map (fun p => if p.1 = i then (i, r) else p)).lookup k = b.lookup k := by
  have hki : (k == i) = false := beq_eq_false_iff_ne.mpr (Ne.symm h)
  induction b with
  | nil => rfl
  | cons p t ih =>
      obtain ⟨a, v⟩ := p
      by_cases hp : a = i
      · have hhead : (if ((a, v) : Nat × Record).1 = i then ((i, r) : Nat × Record)
            else (a, v)) = (i, r) := by simp [hp]
        have hka : (k == a) = false := by rw [hp]; exact hki
        rw [List.map_cons, hhead]
        simp [List.lookup, hki, hka, ih]
      · have hhead : (if ((a, v) : Nat × Record).1 = i then ((i, r) : Nat × Record)
            else (a, v)) = (a, v) := by simp [hp]
        rw [List.map_cons, hhead]
        by_cases hak : (k == a) = true
        · simp [List.lookup, hak]
        · simp only [Bool.not_eq_true] at hak
          simp [List.lookup, hak, ih]

theorem lookup_append_single (b : Buffer) (i k : Nat) (r : Record)
    (h : i ≠ k) : (b ++ [(i, r)]).lookup k = b.lookup k := by
  have hki : (k == i) = false := beq_eq_false_iff_ne.mpr (Ne.symm h)
  induction b with
  | nil => simp [List.lookup, hki]
  | cons p t ih =>
      by_cases hpk : (k == p.1) = true
      · simp [List.lookup, hpk]
      · simp only [Bool.not_eq_true] at hpk
        simp [List.lookup, hpk, ih]

theorem dictInsert_lookup_ne (b : Buffer) (i k : Nat) (r : Record)
    (h : i ≠ k) : (dictInsert b i r).lookup k = b.lookup k := by
  unfold dictInsert
  by_cases hany : b.any (fun p => p.1 = i) = true
  · rw [if_pos hany]; exact lookup_map_update b i k r h
  · rw [if_neg hany]; exact lookup_append_single b i k r h

theorem fold_lookup_not_mem (gen : Nat → Record) (l : List Nat) :
    ∀ (b : Buffer) (k : Nat), k ∉ l →
      (l.foldl (fun buf idx => dictInsert buf idx (gen idx)) b).lookup k
        = b.lookup k := by
  induction l with
  | nil => intro b k _; rfl
  | cons i t ih =>
      intro b k hk
      have hik : i ≠ k := fun hik => hk (hik ▸ List.mem_cons_self i t)
      simp only [List.foldl_cons]
      rw [ih (dictInsert b i (gen i)) k (fun ht => hk (List.mem_cons_of_mem i ht))]
      exact dictInsert_lookup_ne b i k (gen i) hik

/-- Claim C9.  Persistence frame of one page run: the buffer loaded at the
start of the run is mutated only at the keys returned by the index
computation, and the whole resulting buffer is what gets persisted; every
key of the previously persisted buffer that is not among the computed
indices maps in the written buffer to exactly its previously persisted
record. -/
theorem persistence_frame (gen : Nat → Record) (n : Nat) (b : Buffer)
    (k : Nat) (_hmem : k ∈ b.map Prod.fst)
    (hnot : k ∉ next_variant_indexes b.length MAX_VARIANTS n) :
    (runPage gen n b).lookup k = b.lookup k := by
  unfold runPage
  exact fold_lookup_not_mem gen _ b k hnot

/-- Claim C9 witness: a buffer holding key 1, a run adding one variant at
key 2; the record at key 1 is unchanged by the run. -/
theorem persistence_frame_witness :
    (runPage (fun _ => []) 1 [(1, [("headline", "old text")])]).lookup 1
      = ([(1, [("headline", "old text")])] : Buffer).lookup 1 :=
  persistence_frame (fun _ => []) 1 [(1, [("headline", "old text")])] 1
    (by decide) (by decide)

/-! ### Scene variant pipeline: `regenerate_images.py` -/

/-- JSON scalar values appearing in variant spec fields. -/
inductive JVal where
  | null
  | boolean (b : Bool)
  | num (n : Int)
  | str (s : String)
  deriving DecidableEq

/-- A variant spec: a JSON object, modelled as an ordered association list
from field names to values (Python dicts keep insertion order and have
distinct keys). -/
abbrev Variant := List (String × JVal)

/-- Fields considered important for equality checks, from
`_normalize_variant` (line 51). -/
def importantKeys : List String :=
  ["id", "type", "width", "height", "aspect", "centered", "filename",
   "prompt_file", "steps", "guidance", "quality"]

/-- Embedding of `_normalize_variant(v)`: the dict comprehension over the
fixed key list keeps exactly the important fields present in `v`, in the
fixed key order; Python dict equality on two such normalized dicts
coincides with list equality because both are built in the same key
order. -/
def _normalize_variant (v : Variant) : Variant :=
  importantKeys.filterMap (fun k => (v.lookup k).map (fun val => (k, val)))

/-- Fatal manifest errors of `regenerate_images.py` (raised as `SystemExit`
or `ValueError` in the source; the spec calls them all `ManifestError`). -/
inductive ManifestError where
  | noScenes
  | sharedVariantsMissing (sceneKey : String)
  | duplicateIds (dups : List (Option JVal)) (sceneKey : String)
  | variantMismatch (canonicalScene mismatchScene : String)
  | missingMaster (sceneKey : String)
  deriving DecidableEq

/-- Embedding of `_validate_unique_ids(variants, scene_key)`: collect the
`id` field of every variant, keep those occurring more than once
(deduplicated, modelling the Python set), and fail naming them if any. -/
def _validate_unique_ids (variants : List Variant) (scene_key : String) :
    Except ManifestError Unit :=
  let ids := variants.map (fun v => v.lookup "id")
  let dup := (ids.filter (fun x => ids.count x > 1)).dedup
  if dup ≠ [] then .error (.duplicateIds dup scene_key) else .ok ()

/-- The `variants` field of a scene in `images.json`: either the literal
string marker `"shared_variants"` or an inline list of variant specs. -/
inductive VariantsField where
  | sharedMarker
  | inline (vs : List Variant)
  deriving DecidableEq

/-- A scene entry of the manifest: the optional `master` path (absent key
modelled as `none`) and the variants field. -/
structure SceneCfg where
  master : Option String
  variants : VariantsField
  deriving DecidableEq

/-- The manifest `images.json`: optional `shared_variants` template and the
ordered scene mapping. -/
structure ImagesConfig where
  shared_variants : Option (List Variant)
  scenes : List (String × SceneCfg)
  deriving DecidableEq

/-- A scene after shared-variants resolution: master path and a concrete
variant list. -/
structure RScene where
  master : Option String
  variants : List Variant
  deriving DecidableEq

/-- Embedding of the shared-variants shorthand resolution in
`prepare_scenes` (lines 160-165): a scene whose `variants` is the marker is
replaced by a deep copy of the manifest template; Python's
`if not shared_variants` treats both an absent and an empty template as
missing. -/
def resolveVariants (shared : Option (List Variant)) (sk : String) :
    VariantsField → Except ManifestError (List Variant)
  | .sharedMarker =>
      match shared with
      | none => .error (.sharedVariantsMissing sk)
      | some [] => .error (.sharedVariantsMissing sk)
      | some vs => .ok vs
  | .inline vs => .ok vs

/-- Embedding of the canonical-comparison loop of `prepare_scenes`
(lines 171-185) over the scenes after the first: validate unique ids,
normalize, compare positionally with the canonical normalized list; on
mismatch fail (`auto_sync = false`) or overwrite with a deep copy of the
canonical scene's variants (`auto_sync = true`). -/
def consistencyLoop (auto_sync : Bool) (canonicalKey : String)
    (canonicalNorm : List Variant) (canonicalVs : List Variant) :
    List (String × RScene) → Except ManifestError (List (String × RScene))
  | [] => .ok []
  | (sk, s) :: rest => do
      _ ← _validate_unique_ids s.variants sk
      if s.variants.map _normalize_variant = canonicalNorm then do
        let r ← consistencyLoop auto_sync canonicalKey canonicalNorm canonicalVs rest
        .ok ((sk, s) :: r)
      else if auto_sync then do
        let r ← consistencyLoop auto_sync canonicalKey canonicalNorm canonicalVs rest
        .ok ((sk, { s with variants := canonicalVs }) :: r)
      else
        .error (.variantMismatch canonicalKey sk)

/-- Embedding of the shorthand-resolution loop of `prepare_scenes`
(lines 160-165) over the whole scene list, in manifest order. -/
def resolveScenes (shared : Option (List Variant)) :
    List (String × SceneCfg) → Except ManifestError (List (String × RScene))
  | [] => .ok []
  | (sk, sc) :: rest => do
      let vs ← resolveVariants shared sk sc.variants
      let r ← resolveScenes shared rest
      .ok ((sk, RScene.mk sc.master vs) :: r)

/-- Embedding of `prepare_scenes(config, auto_sync)` (lines 148-190),
without the optional write-back I/O: fail if no scenes; resolve the
shared-variants shorthand in every scene; take the first scene as
canonical, validate its ids; run the consistency loop over the remaining
scenes; return the resolved scenes and the canonical scene key. -/
def prepare_scenes (config : ImagesConfig) (auto_sync : Bool) :
    Except ManifestError (List (String × RScene) × String) :=
  match config.scenes with
  | [] => .error .noScenes
  | sc0 :: rest => do
      let vs0 ← resolveVariants config.shared_variants sc0.1 sc0.2.variants
      let rrest ← resolveScenes config.shared_variants rest
      _ ← _validate_unique_ids vs0 sc0.1
      let rest2 ← consistencyLoop auto_sync sc0.1 (vs0.map _normalize_variant)
        vs0 rrest
      .ok ((sc0.1, RScene.mk sc0.2.master vs0) :: rest2, sc0.1)

/-- Embedding of the fatal entry check of `process_scene` (lines 239-241):
`if not master_path_cfg: raise SystemExit(...)` aborts on an absent
`master` key and on an empty `master` string.  The remainder of
`process_scene` performs per-variant derivation whose failures are caught
or skipped per variant and raises no further fatal error on the
`--process` path, so it is modelled as success. -/
def process_scene (scene_key : String) (scene : RScene) :
    Except ManifestError Unit :=
  match scene.master with
  | none => .error (.missingMaster scene_key)
  | some m => if m = "" then .error (.missingMaster scene_key) else .ok ()

/-- Embedding of the per-scene loop of `main` (lines 380-416) on the
default `--process` path: scenes are processed in manifest order; an
uncaught `SystemExit` from `process_scene` terminates the whole process,
so processing stops at the first fatal scene.  Returns the keys of the
scenes that were processed and the fatal error, if any. -/
def mainProcessScenes :
    List (String × RScene) → List String × Option ManifestError
  | [] => ([], none)
  | (k, s) :: rest =>
      match process_scene k s with
      | .error e => ([], some e)
      | .ok _ =>
          let r := mainProcessScenes rest
          (k :: r.1, r.2)

/-! #### Claim C4: missing-master failure scoping -/

/-- Claim C4 (counterexample).  In a manifest whose first scene lacks the
`master` key and whose second scene has one, the run aborts at the first
scene: the second scene is not processed, contradicting the claim that
every other scene still gets processed. -/
theorem missing_master_counterexample :
    (mainProcessScenes
        [("alpha", RScene.mk none []),
         ("beta", RScene.mk (some "master.png") [])]).1 = [] ∧
    "beta" ∉ (mainProcessScenes
        [("alpha", RScene.mk none []),
         ("beta", RScene.mk (some "master.png") [])]).1 ∧
    (mainProcessScenes
        [("alpha", RScene.mk none []),
         ("beta", RScene.mk (some "master.png") [])]).2
      = some (ManifestError.missingMaster "alpha") := by
  decide

/-- Claim C4 (amended).  A scene entry lacking the `master` key makes
`process_scene` fail, and the resulting `SystemExit` aborts the whole run:
in a full-manifest run, the scenes before the first such scene in manifest
order are processed, while the failing scene and every scene after it are
not. -/
theorem missing_master_aborts_run (pre post : List (String × RScene))
    (k : String) (s : RScene)
    (hpre : ∀ p ∈ pre, process_scene p.1 p.2 = Except.ok ())
    (hs : s.master = none) :
    process_scene k s = Except.error (ManifestError.missingMaster k) ∧
    mainProcessScenes (pre ++ (k, s) :: post)
      = (pre.map Prod.fst, some (ManifestError.missingMaster k)) := by
  have hfail : process_scene k s = Except.error (ManifestError.missingMaster k) := by
    unfold process_scene
    rw [hs]
  refine ⟨hfail, ?_⟩
  induction pre with
  | nil =>
      simp only [List.nil_append, mainProcessScenes, hfail, List.map_nil]
  | cons p t ih =>
      have hp : process_scene p.1 p.2 = Except.ok () :=
        hpre p (List.mem_cons_self p t)
      have ht : ∀ q ∈ t, process_scene q.1 q.2 = Except.ok () :=
        fun q hq => hpre q (List.mem_cons_of_mem p hq)
      obtain ⟨pk, ps⟩ := p
      simp only [List.cons_append, mainProcessScenes, hp, List.map_cons]
      rw [List.append_eq, ih ht]

/-- Claim C4 witness: one good scene before a master-less scene and one
after; the run processes exactly the first scene and aborts naming the
second. -/
theorem missing_master_aborts_run_witness :
    mainProcessScenes
        [("alpha", RScene.mk (some "a.png") []),
         ("beta", RScene.mk none []),
         ("gamma", RScene.mk (some "c.png") [])]
      = (["alpha"], some (ManifestError.missingMaster "beta")) :=
  (missing_master_aborts_run [("alpha", RScene.mk (some "a.png") [])]
    [("gamma", RScene.mk (some "c.png") [])] "beta" (RScene.mk none [])
    (by
      intro p hp
      rw [List.mem_singleton] at hp
      subst hp
      rfl) rfl).2

/-! #### Claim C6: duplicate id detection -/

/-- Claim C6.  For every variant list and scene key, `_validate_unique_ids`
succeeds when all `id` values are distinct, and otherwise fails with a
`ManifestError` whose duplicate list names every id occurring more than
once; in particular two variants sharing `id = "a"` raise an error naming
`"a"`. -/
theorem duplicate_id_detection (variants : List Variant) (sk : String) :
    ((∀ x, (variants.map (fun v => v.lookup "id")).count x ≤ 1) →
      _validate_unique_ids variants sk = Except.ok ()) ∧
    ((∃ x, 1 < (variants.map (fun v => v.lookup "id")).count x) →
      ∃ dups, _validate_unique_ids variants sk
          = Except.error (ManifestError.duplicateIds dups sk) ∧
        ∀ x, 1 < (variants.map (fun v => v.lookup "id")).count x → x ∈ dups) ∧
    (∃ dups, _validate_unique_ids
        [[("id", JVal.str "a")], [("id", JVal.str "a")]] "scene"
        = Except.error (ManifestError.duplicateIds dups "scene") ∧
      some (JVal.str "a") ∈ dups) := by
  refine ⟨?_, ?_, ?_⟩
  · intro hcount
    have hfil : ((variants.map (fun v => v.lookup "id")).filter
        (fun x => (variants.map (fun v => v.lookup "id")).count x > 1)) = [] := by
      apply List.filter_eq_nil_iff.mpr
      intro a _
      simp only [decide_eq_true_eq, not_lt]
      exact hcount a
    simp [_validate_unique_ids, hfil]
  · intro hx
    obtain ⟨x, hx⟩ := hx
    have hmem : x ∈ variants.map (fun v => v.lookup "id") :=
      List.count_pos_iff.mp (by omega)
    have hfil : x ∈ ((variants.map (fun v => v.lookup "id")).filter
        (fun y => (variants.map (fun v => v.lookup "id")).count y > 1)) :=
      List.mem_filter.mpr ⟨hmem, by simpa using hx⟩
    have hded : x ∈ ((variants.map (fun v => v.lookup "id")).filter
        (fun y => (variants.map (fun v => v.lookup "id")).count y > 1)).dedup :=
      List.mem_dedup.mpr hfil
    have hne : ((variants.map (fun v => v.lookup "id")).filter
        (fun y => (variants.map (fun v => v.lookup "id")).count y > 1)).dedup
        ≠ [] := List.ne_nil_of_mem hded
    refine ⟨((variants.map (fun v => v.lookup "id")).filter
        (fun y => (variants.map (fun v => v.lookup "id")).count y > 1)).dedup,
      ?_, ?_⟩
    · simp [_validate_unique_ids, hne]
    · intro y hy
      have hymem : y ∈ variants.map (fun v => v.lookup "id") :=
        List.count_pos_iff.mp (by omega)
      exact List.mem_dedup.mpr (List.mem_filter.mpr ⟨hymem, by simpa using hy⟩)
  · exact ⟨[some (JVal.str "a")], rfl, by simp⟩

/-- Claim C6 witness: two variants sharing id "a" fail naming "a", and two
distinct ids pass, both by instantiating the detection theorem. -/
theorem duplicate_id_detection_witness :
    _validate_unique_ids [] "s" = Except.ok () ∧
    (∃ dups, _validate_unique_ids
        [[("id", JVal.str "a")], [("id", JVal.str "a")]] "scene"
        = Except.error (ManifestError.duplicateIds dups "scene") ∧
      ∀ x, 1 < ((([[("id", JVal.str "a")], [("id", JVal.str "a")]] :
          List Variant)).map (fun v => v.lookup "id")).count x → x ∈ dups) :=
  ⟨(duplicate_id_detection [] "s").1 (fun x => by simp),
   (duplicate_id_detection
      [[("id", JVal.str "a")], [("id", JVal.str "a")]] "scene").2.1
     ⟨some (JVal.str "a"), by decide⟩⟩

/-! #### Claim C5: cross-scene consistency check -/

theorem except_bind_ok {α β : Type} (a : α)
    (f : α → Except ManifestError β) :
    (Except.ok a : Except ManifestError α) >>= f = f a := rfl

theorem except_bind_error {α β : Type} (e : ManifestError)
    (f : α → Except ManifestError β) :
    (Except.error e : Except ManifestError α) >>= f
      = (Except.error e : Except ManifestError β) := rfl

/-- Builds a manifest whose scenes all carry inline variant lists (the
shape reached after shared-variants resolution has nothing to expand). -/
def mkConfig (scenes : List (String × Option String × List Variant)) :
    ImagesConfig :=
  ImagesConfig.mk none
    (scenes.map (fun p => (p.1, SceneCfg.mk p.2.1 (VariantsField.inline p.2.2))))

theorem resolveScenes_inline (shared : Option (List Variant))
    (l : List (String × Option String × List Variant)) :
    resolveScenes shared
        (l.map (fun p => (p.1, SceneCfg.mk p.2.1 (VariantsField.inline p.2.2))))
      = Except.ok (l.map (fun p => (p.1, RScene.mk p.2.1 p.2.2))) := by
  induction l with
  | nil => rfl
  | cons p t ih =>
      simp only [List.map_cons, resolveScenes, resolveVariants, except_bind_ok,
        ih]

theorem consistencyLoop_all_match (k0 : String) (cn cvs : List Variant)
    (l : List (String × RScene))
    (hval : ∀ p ∈ l, _validate_unique_ids p.2.variants p.1 = Except.ok ())
    (hmatch : ∀ p ∈ l, p.2.variants.map _normalize_variant = cn) :
    consistencyLoop false k0 cn cvs l = Except.ok l := by
  induction l with
  | nil => rfl
  | cons q t ih =>
      obtain ⟨sk, s⟩ := q
      have h1 : _validate_unique_ids s.variants sk = Except.ok () :=
        hval (sk, s) (List.mem_cons_self _ _)
      have h2 : s.variants.map _normalize_variant = cn :=
        hmatch (sk, s) (List.mem_cons_self _ _)
      have ihok := ih (fun q hq => hval q (List.mem_cons_of_mem _ hq))
        (fun q hq => hmatch q (List.mem_cons_of_mem _ hq))
      simp only [consistencyLoop, h1, except_bind_ok, if_pos h2, ihok]

theorem consistencyLoop_ok_all_match (k0 : String) (cn cvs : List Variant) :
    ∀ (l out : List (String × RScene)),
      consistencyLoop false k0 cn cvs l = Except.ok out →
      ∀ p ∈ l, p.2.variants.map _normalize_variant = cn := by
  intro l
  induction l with
  | nil => intro out _ p hp; exact absurd hp (List.not_mem_nil p)
  | cons q t ih =>
      intro out h p hp
      obtain ⟨sk, s⟩ := q
      rcases hv : _validate_unique_ids s.variants sk with e | u
      · rw [consistencyLoop, hv, except_bind_error] at h
        exact absurd h (by simp)
      · by_cases hc : s.variants.map _normalize_variant = cn
        · rcases List.mem_cons.mp hp with rfl | hpt
          · exact hc
          · rw [consistencyLoop, hv, except_bind_ok, if_pos hc] at h
            rcases hrec : consistencyLoop false k0 cn cvs t with e | r
            · rw [hrec, except_bind_error] at h
              exact absurd h (by simp)
            · exact ih r hrec p hpt
        · rw [consistencyLoop, hv, except_bind_ok, if_neg hc] at h
          simp only [Bool.false_eq_true, if_false] at h
          exact absurd h (by simp)

theorem consistencyLoop_mismatch_error (k0 : String) (cn cvs : List Variant) :
    ∀ l : List (String × RScene),
      (∀ p ∈ l, _validate_unique_ids p.2.variants p.1 = Except.ok ()) →
      (∃ p ∈ l, p.2.variants.map _normalize_variant ≠ cn) →
      ∃ sk, consistencyLoop false k0 cn cvs l
        = Except.error (ManifestError.variantMismatch k0 sk) := by
  intro l
  induction l with
  | nil =>
      intro _ hmm
      obtain ⟨p, hp, _⟩ := hmm
      exact absurd hp (List.not_mem_nil p)
  | cons q t ih =>
      intro hval hmm
      obtain ⟨sk, s⟩ := q
      have h1 : _validate_unique_ids s.variants sk = Except.ok () :=
        hval (sk, s) (List.mem_cons_self _ _)
      by_cases hc : s.variants.map _normalize_variant = cn
      · have hmm2 : ∃ p ∈ t, p.2.variants.map _normalize_variant ≠ cn := by
          obtain ⟨p, hp, hne⟩ := hmm
          rcases List.mem_cons.mp hp with rfl | hpt
          · exact absurd hc hne
          · exact ⟨p, hpt, hne⟩
        obtain ⟨sk2, hsk2⟩ := ih
          (fun q hq => hval q (List.mem_cons_of_mem _ hq)) hmm2
        refine ⟨sk2, ?_⟩
        simp only [consistencyLoop, h1, except_bind_ok, if_pos hc, hsk2,
          except_bind_error]
      · refine ⟨sk, ?_⟩
        simp only [consistencyLoop, h1, except_bind_ok, if_neg hc,
          Bool.false_eq_true, if_false]

/-- Claim C5.  With `autoSync = false` and every per-scene unique-id check
passing, `prepare_scenes` succeeds exactly when every scene's normalized
variant list (projection to the fixed important-field subset) is
positionally equal to the first (canonical) scene's; when some scene
differs after normalization, it fails with the `ManifestError` naming the
canonical scene and a mismatching scene.  Differences confined to fields
outside the subset disappear under `_normalize_variant`, so such scenes
are consistent; a `width` difference survives normalization and is a
mismatch. -/
theorem manifest_consistency (k0 : String) (m0 : Option String)
    (vs0 : List Variant) (rest : List (String × Option String × List Variant))
    (h0 : _validate_unique_ids vs0 k0 = Except.ok ())
    (hrest : ∀ p ∈ rest, _validate_unique_ids p.2.2 p.1 = Except.ok ()) :
    ((∃ out, prepare_scenes (mkConfig ((k0, m0, vs0) :: rest)) false
        = Except.ok out) ↔
      ∀ p ∈ rest, p.2.2.map _normalize_variant = vs0.map _normalize_variant) ∧
    ((∃ p ∈ rest, p.2.2.map _normalize_variant ≠ vs0.map _normalize_variant) →
      ∃ sk, prepare_scenes (mkConfig ((k0, m0, vs0) :: rest)) false
        = Except.error (ManifestError.variantMismatch k0 sk)) := by
  have hres := resolveScenes_inline none rest
  have hprep : prepare_scenes (mkConfig ((k0, m0, vs0) :: rest)) false
      = (consistencyLoop false k0 (vs0.map _normalize_variant) vs0
            (rest.map (fun p => (p.1, RScene.mk p.2.1 p.2.2)))) >>=
          (fun rest2 => Except.ok ((k0, RScene.mk m0 vs0) :: rest2, k0)) := by
    simp only [prepare_scenes, mkConfig, List.map_cons, resolveVariants,
      except_bind_ok, hres, h0]
  have hvalR : ∀ p ∈ rest.map (fun p => (p.1, RScene.mk p.2.1 p.2.2)),
      _validate_unique_ids p.2.variants p.1 = Except.ok () := by
    intro p hp
    rcases List.mem_map.mp hp with ⟨q, hq, rfl⟩
    exact hrest q hq
  constructor
  · constructor
    · rintro ⟨out, hout⟩
      rw [hprep] at hout
      intro p hp
      rcases hloop : consistencyLoop false k0 (vs0.map _normalize_variant) vs0
          (rest.map (fun p => (p.1, RScene.mk p.2.1 p.2.2))) with e | r
      · rw [hloop, except_bind_error] at hout
        exact absurd hout (by simp)
      · exact consistencyLoop_ok_all_match k0 (vs0.map _normalize_variant) vs0
          _ r hloop (p.1, RScene.mk p.2.1 p.2.2)
          (List.mem_map_of_mem _ hp)
    · intro hall
      have hloop := consistencyLoop_all_match k0 (vs0.map _normalize_variant)
        vs0 (rest.map (fun p => (p.1, RScene.mk p.2.1 p.2.2))) hvalR
        (by
          intro p hp
          rcases List.mem_map.mp hp with ⟨q, hq, rfl⟩
          exact hall q hq)
      exact ⟨_, by rw [hprep, hloop, except_bind_ok]⟩
  · rintro ⟨p, hp, hne⟩
    obtain ⟨sk, hsk⟩ := consistencyLoop_mismatch_error k0
      (vs0.map _normalize_variant) vs0
      (rest.map (fun p => (p.1, RScene.mk p.2.1 p.2.2))) hvalR
      ⟨(p.1, RScene.mk p.2.1 p.2.2), List.mem_map_of_mem _ hp, hne⟩
    exact ⟨sk, by rw [hprep, hsk, except_bind_error]⟩

/-- Claim C5 witness: two scenes whose variant lists differ only in an
extra unknown field `note` pass the check, while a `width` difference
yields the mismatch error; both by instantiating the consistency
theorem. -/
theorem manifest_consistency_witness :
    (∃ out, prepare_scenes (mkConfig
        [("hero", some "m.png",
          [[("id", JVal.str "a"), ("type", JVal.str "crop"),
            ("width", JVal.num 100)]]),
         ("about", some "n.png",
          [[("id", JVal.str "a"), ("type", JVal.str "crop"),
            ("width", JVal.num 100), ("note", JVal.str "extra")]])]) false
      = Except.ok out) ∧
    (∃ sk, prepare_scenes (mkConfig
        [("hero", some "m.png",
          [[("id", JVal.str "a"), ("type", JVal.str "crop"),
            ("width", JVal.num 100)]]),
         ("about", some "n.png",
          [[("id", JVal.str "a"), ("type", JVal.str "crop"),
            ("width", JVal.num 200)]])]) false
      = Except.error (ManifestError.variantMismatch "hero" sk)) :=
  ⟨((manifest_consistency "hero" (some "m.png")
      [[("id", JVal.str "a"), ("type", JVal.str "crop"),
        ("width", JVal.num 100)]]
      [("about", some "n.png",
        [[("id", JVal.str "a"), ("type", JVal.str "crop"),
          ("width", JVal.num 100), ("note", JVal.str "extra")]])]
      rfl
      (by
        intro p hp
        rw [List.mem_singleton] at hp
        subst hp
        rfl)).1.mpr
    (by
      intro p hp
      rw [List.mem_singleton] at hp
      subst hp
      decide)),
   ((manifest_consistency "hero" (some "m.png")
      [[("id", JVal.str "a"), ("type", JVal.str "crop"),
        ("width", JVal.num 100)]]
      [("about", some "n.png",
        [[("id", JVal.str "a"), ("type", JVal.str "crop"),
          ("width", JVal.num 200)]])]
      rfl
      (by
        intro p hp
        rw [List.mem_singleton] at hp
        subst hp
        rfl)).2
    ⟨("about", some "n.png",
        [[("id", JVal.str "a"), ("type", JVal.str "crop"),
          ("width", JVal.num 200)]]),
      List.mem_singleton.mpr rfl, by decide⟩)⟩

/-! #### Image operations: `crop_center_to_aspect` (lines 66-96)

The PIL image is modelled as its dimensions plus a pixel function.  The
final `img_cropped.resize((target_w, target_h), Image.LANCZOS)` call is an
external PIL collaborator; the embedding abstracts it as a `resize`
parameter, whose PIL contract (the returned image has exactly the
requested dimensions) enters the theorems as a hypothesis.  Python
computes the aspect ratios `target_w / target_h` and `src_w / src_h` in
floating point; the embedding performs the comparison and the `int(...)`
floors in exact rational arithmetic over the same integers
(`a / b > c / d  iff  a * d > c * b` for positive denominators, and
`int(src_h * (target_w / target_h)) = src_h * target_w / target_h` in
natural division). -/

/-- A raster image: dimensions and pixel contents. -/
structure PImage where
  width : Nat
  height : Nat
  px : Nat → Nat → Nat

/-- Embedding of PIL `img.crop((left, upper, right, lower))`: the result
has size `(right - left, lower - upper)` and its pixel `(x, y)` is the
source pixel `(x + left, y + upper)`. -/
def PImage.crop (img : PImage) (box : Nat × Nat × Nat × Nat) : PImage :=
  ⟨box.2.2.1 - box.1, box.2.2.2 - box.2.1,
   fun x y => img.px (x + box.1) (y + box.2.1)⟩

/-- Embedding of the crop-box computation of `crop_center_to_aspect`
(lines 79-93): pick `(new_w, new_h)` to match the target aspect, keeping
full height when the source is relatively wider and full width otherwise;
anchor at the centre when `centered` and at the origin otherwise; return
`(left, upper, right, lower)`. -/
def cropBox (src_w src_h target_w target_h : Nat) (centered : Bool) :
    Nat × Nat × Nat × Nat :=
  let wider := target_w * src_h < src_w * target_h
  let new_w := if wider then src_h * target_w / target_h else src_w
  let new_h := if wider then src_h else src_w * target_h / target_w
  let left := if centered then (src_w - new_w) / 2 else 0
  let upper := if centered then (src_h - new_h) / 2 else 0
  (left, upper, left + new_w, upper + new_h)

/-- Embedding of `crop_center_to_aspect(img, target_w, target_h, centered)`:
if the source already has exactly the target size, return a plain copy of
it (`img.copy()`, value-identical); otherwise crop to the computed box and
resize (PIL Lanczos, abstracted as `resize`) to the exact target size. -/
def crop_center_to_aspect (resize : PImage → Nat → Nat → PImage)
    (img : PImage) (target_w target_h : Nat) (centered : Bool) : PImage :=
  if img.width = target_w ∧ img.height = target_h then img
  else
    resize (img.crop (cropBox img.width img.height target_w target_h centered))
      target_w target_h

/-- Embedding of `resize_to(img, target_w, target_h)` = `ImageOps.contain`:
scale to fit within the target box preserving aspect ratio (external PIL
operation, abstracted through its contract in any theorem that needs
it). -/
def resize_to (resize : PImage → Nat → Nat → PImage) (img : PImage)
    (target_w target_h : Nat) : PImage :=
  resize img target_w target_h

/-! #### Claim C7: crop aspect exactness -/

/-- Claim C7.  For every source image with positive dimensions, every
positive target `(w, h)`, and every resampler satisfying the PIL `resize`
contract (output dimensions are exactly those requested),
`crop_center_to_aspect` returns an image of dimensions exactly
`(w, h)`. -/
theorem crop_aspect_exactness (resize : PImage → Nat → Nat → PImage)
    (hresize : ∀ im w h, (resize im w h).width = w ∧ (resize im w h).height = h)
    (img : PImage) (target_w target_h : Nat) (centered : Bool)
    (_hw : 0 < target_w) (_hh : 0 < target_h)
    (_hsw : 0 < img.width) (_hsh : 0 < img.height) :
    (crop_center_to_aspect resize img target_w target_h centered).width
        = target_w ∧
    (crop_center_to_aspect resize img target_w target_h centered).height
        = target_h := by
  unfold crop_center_to_aspect
  by_cases hsame : img.width = target_w ∧ img.height = target_h
  · rw [if_pos hsame]
    exact hsame
  · rw [if_neg hsame]
    exact hresize _ target_w target_h

/-- Claim C7 witness: a concrete resampler satisfying the size contract
and a 3x2 source cropped to 2x2. -/
theorem crop_aspect_exactness_witness :
    (crop_center_to_aspect (fun im w h => PImage.mk w h im.px)
        (PImage.mk 3 2 (fun _ _ => 0)) 2 2 true).width = 2 ∧
    (crop_center_to_aspect (fun im w h => PImage.mk w h im.px)
        (PImage.mk 3 2 (fun _ _ => 0)) 2 2 true).height = 2 :=
  crop_aspect_exactness (fun im w h => PImage.mk w h im.px)
    (fun _ _ _ => ⟨rfl, rfl⟩) (PImage.mk 3 2 (fun _ _ => 0)) 2 2 true
    (by decide) (by decide) (by decide) (by decide)

/-! #### Claim C8: crop anchoring -/

/-- Claim C8.  When the source is relatively wider than the target aspect
(`src_w / src_h > target_w / target_h`, compared exactly), the crop box
keeps full height (`upper = 0`, `lower = src_h`) and crops the width to
`new_w = src_h * target_w / target_h`; with `centered = true` the box is
anchored at `left = (src_w - new_w) / 2`, with `centered = false` at
`left = 0`.  For a 200x100 source and target aspect 1:1 (target 100x100)
the centered box is `(50, 0, 150, 100)` — crop width 100, left margin 50
and right margin `200 - 150 = 50` — and the non-centered box is
`(0, 0, 100, 100)` — left margin 0. -/
theorem crop_anchoring (src_w src_h target_w target_h : Nat)
    (hwider : target_w * src_h < src_w * target_h) :
    (cropBox src_w src_h target_w target_h true
        = ((src_w - src_h * target_w / target_h) / 2, 0,
           (src_w - src_h * target_w / target_h) / 2
             + src_h * target_w / target_h, src_h) ∧
     cropBox src_w src_h target_w target_h false
        = (0, 0, src_h * target_w / target_h, src_h)) ∧
    cropBox 200 100 100 100 true = (50, 0, 150, 100) ∧
    cropBox 200 100 100 100 false = (0, 0, 100, 100) := by
  refine ⟨⟨?_, ?_⟩, by decide, by decide⟩
  · simp [cropBox, hwider]
  · simp [cropBox, hwider]

/-- Claim C8 witness: the anchoring theorem instantiated at the 200x100
source with 100x100 target of the spec's example. -/
theorem crop_anchoring_witness :
    cropBox 200 100 100 100 true = (50, 0, 150, 100) ∧
    cropBox 200 100 100 100 false = (0, 0, 100, 100) :=
  ⟨(crop_anchoring 200 100 100 100 (by decide)).2.1,
   (crop_anchoring 200 100 100 100 (by decide)).2.2⟩

/-! #### Claim C10: identity short-circuit -/

/-- Claim C10.  For every source image whose dimensions already equal the
target exactly, `crop_center_to_aspect` returns the plain copy of the
source unchanged — for every resampler whatsoever, so no crop box is
consulted and no resampling touches the result. -/
theorem crop_identity (resize : PImage → Nat → Nat → PImage) (img : PImage)
    (target_w target_h : Nat) (centered : Bool)
    (hw : img.width = target_w) (hh : img.height = target_h) :
    crop_center_to_aspect resize img target_w target_h centered = img := by
  unfold crop_center_to_aspect
  rw [if_pos ⟨hw, hh⟩]

/-- Claim C10 witness: a concrete 2x2 image with a non-constant pixel
function passes through unchanged even under a resampler that would
blank every pixel. -/
theorem crop_identity_witness :
    crop_center_to_aspect (fun _ w h => PImage.mk w h (fun _ _ => 0))
        (PImage.mk 2 2 (fun x y => x + 2 * y)) 2 2 true
      = PImage.mk 2 2 (fun x y => x + 2 * y) :=
  crop_identity (fun _ w h => PImage.mk w h (fun _ _ => 0))
    (PImage.mk 2 2 (fun x y => x + 2 * y)) 2 2 true rfl rfl

end StarstuckLab
